import Mathlib

/-!
Verification of the hierarchical tree-building and printing core of the
gdrive organizer (`DriveManager._build_tree`, `DriveManager._print_tree`,
`DriveManager.list_files` in `python_gdrive_organizer.py`).

The shallow embedding represents one fetched record (a Python dict with
keys `id`, `name`, `mimeType` and optionally `parents`) as a `RawFile`.
Records are processed positionally, exactly as the Python `for file in
files` loop does; the mutable decorations the loop adds (`children`,
`is_folder`) are represented by a `BuildState` holding one children list
per record position, plus the insertion-ordered `tree` dictionary of
top-level entries.

A crucial behaviour of the source is modelled faithfully: the loop reads
`file_map[parent_id]['is_folder']` for a parent that is in the batch, but
the `is_folder` key only exists on records already visited by the loop.
For a parent at a later position this raises `KeyError`; the embedding
returns `Except.error ()` in that case.
-/

/-- The MIME type string the source compares against to decide folderness. -/
def folderMimeType : String := "application/vnd.google-apps.folder"

/-- One fetched record: `files(id, name, mimeType, parents)` from the API.
`parents` is `none` when the dict carries no `parents` key at all. -/
structure RawFile where
  id : String
  name : String
  mimeType : String
  parents : Option (List String)
deriving Repr, DecidableEq, Inhabited

/-- `file.get('parents', [])`: the parent list, defaulting to empty. -/
def RawFile.getParents (f : RawFile) : List String := f.parents.getD []

/-- `file['mimeType'] == 'application/vnd.google-apps.folder'`,
the value stored into `file['is_folder']`. -/
def RawFile.isFolder (f : RawFile) : Bool := f.mimeType == folderMimeType

/-- Position resolved by `file_map[pid]`: the dict comprehension
`{file['id']: file for file in files}` keeps the last record for a
duplicated id, so this is the last position whose id equals `pid`. -/
def lastIdxOf : List RawFile → String → Option Nat
  | [], _ => none
  | f :: rest, pid =>
    match lastIdxOf rest pid with
    | some j => some (j + 1)
    | none => if f.id = pid then some 0 else none

/-- The inner `for parent_id in parents` scan of `_build_tree`, run while
record `i` is being processed (records `0..i` carry `is_folder`).
`ok (some j)` means: attach to the record at position `j` and `break`.
`ok none` means: the scan fell through, the record goes to the top level.
`error ()` models the `KeyError` raised by
`file_map[parent_id]['is_folder']` when the parent is in the batch but at
a position after `i` (not yet decorated). -/
def scanLoop (files : List RawFile) (i : Nat) : List String → Except Unit (Option Nat)
  | [] => Except.ok none
  | pid :: rest =>
    match lastIdxOf files pid with
    | none => scanLoop files i rest
    | some j =>
      if j ≤ i then
        if (files.getD j default).isFolder then Except.ok (some j)
        else scanLoop files i rest
      else Except.error ()

/-- The complete per-record decision of one iteration of the
`for file in files` loop of `_build_tree`. -/
def outcome (files : List RawFile) (i : Nat) : Except Unit (Option Nat) :=
  scanLoop files i (files.getD i default).getParents

/-- The mutable structure `_build_tree` builds: `children` holds, for each
record position, the list of positions appended to that record's
`children` list; `tree` is the top-level dictionary (insertion-ordered
association list from id to record position). -/
structure BuildState where
  children : List (List Nat)
  tree : List (String × Nat)
deriving Repr, DecidableEq, Inhabited

/-- The children list of the record at position `i`. -/
def childrenOf (st : BuildState) (i : Nat) : List Nat := st.children.getD i []

/-- Python dict assignment `d[k] = v` on an insertion-ordered association
list: overwrite in place if the key exists, append otherwise. -/
def dictInsert (k : String) (v : Nat) : List (String × Nat) → List (String × Nat)
  | [] => [(k, v)]
  | (k0, v0) :: rest => if k0 = k then (k, v) :: rest else (k0, v0) :: dictInsert k v rest

/-- One iteration of the `for file in files` loop of `_build_tree`:
reset `file['children']` to `[]`, set `file['is_folder']`, scan the
parents; on attachment append to the chosen parent's children list, else
insert the record into the top-level `tree` keyed by its id. -/
def buildStep (files : List RawFile) (st : BuildState) (i : Nat) : Except Unit BuildState :=
  let st0 : BuildState := { st with children := st.children.set i [] }
  match outcome files i with
  | Except.error e => Except.error e
  | Except.ok (some j) =>
      Except.ok { st0 with children := st0.children.set j (childrenOf st0 j ++ [i]) }
  | Except.ok none =>
      Except.ok { st0 with tree := dictInsert (files.getD i default).id i st0.tree }

/-- Run `buildStep` for `todo` consecutive record positions starting at `i`. -/
def buildAux (files : List RawFile) : BuildState → Nat → Nat → Except Unit BuildState
  | st, _, 0 => Except.ok st
  | st, i, todo + 1 =>
    match buildStep files st i with
    | Except.error e => Except.error e
    | Except.ok st' => buildAux files st' (i + 1) todo

/-- The state before the loop of `_build_tree` runs. -/
def initState (files : List RawFile) : BuildState :=
  { children := List.replicate files.length [], tree := [] }

/-- `DriveManager._build_tree(files)`. -/
def buildTree (files : List RawFile) : Except Unit BuildState :=
  buildAux files (initState files) 0 files.length

/-- The record positions held in the top-level `tree` dictionary
(`tree_roots.values()` in fetch/insertion order). -/
def rootsIdx (st : BuildState) : List Nat := st.tree.map Prod.snd

/-- The ids keying the top-level `tree` dictionary. -/
def rootIds (st : BuildState) : List String := st.tree.map Prod.fst

/-- The data determining one printed display line of `_print_tree`:
indentation level, the icon/type flag, the name and the id. -/
structure Line where
  level : Nat
  isFolder : Bool
  name : String
  id : String
deriving Repr, DecidableEq

/-- The sort key `(not x['is_folder'], x['name'])` used for siblings. -/
def childKey (files : List RawFile) (c : Nat) : Bool × String :=
  (!(files.getD c default).isFolder, (files.getD c default).name)

/-- Python tuple comparison on the two-component sort key:
lexicographic on (Bool, String) with `false < true` and code-point
string comparison. -/
def sortKeyLe (a b : Bool × String) : Prop :=
  a.1 < b.1 ∨ (a.1 = b.1 ∧ a.2 ≤ b.2)

instance : DecidableRel sortKeyLe := fun a b =>
  inferInstanceAs (Decidable (a.1 < b.1 ∨ (a.1 = b.1 ∧ a.2 ≤ b.2)))

/-- Sibling comparison by sort key, lifted to record positions. -/
def sibLe (files : List RawFile) (a b : Nat) : Prop :=
  sortKeyLe (childKey files a) (childKey files b)

instance (files : List RawFile) : DecidableRel (sibLe files) := fun a b =>
  inferInstanceAs (Decidable (sortKeyLe (childKey files a) (childKey files b)))

/-- `sorted(nodes, key=lambda x: (not x['is_folder'], x['name']))`: Python's
`sorted` is a stable sort under a total preorder, modelled by stable
insertion sort. -/
def sortSiblings (files : List RawFile) (l : List Nat) : List Nat :=
  List.insertionSort (sibLe files) l

/-- `DriveManager._print_tree(node, level)`: emit the node's line, then, if
the node is a folder with a non-empty children list, recurse into its
children sorted by the sibling key. `fuel` bounds the recursion depth so
the function is total on arbitrary states; all theorems use enough fuel
for the recursion of the source to have fully unfolded. -/
def printTree (files : List RawFile) (st : BuildState) : Nat → Nat → Nat → List Line
  | 0, _, _ => []
  | fuel + 1, i, level =>
    let f := files.getD i default
    { level := level, isFolder := f.isFolder, name := f.name, id := f.id } ::
      (if f.isFolder && !(childrenOf st i).isEmpty then
        (sortSiblings files (childrenOf st i)).flatMap
          (fun c => printTree files st fuel c (level + 1))
      else [])

/-- The positions visited by `_print_tree` from node `i`, in visit order. -/
def preorder (files : List RawFile) (st : BuildState) : Nat → Nat → List Nat
  | 0, _ => []
  | fuel + 1, i =>
    i :: (if (files.getD i default).isFolder && !(childrenOf st i).isEmpty then
        (sortSiblings files (childrenOf st i)).flatMap (fun c => preorder files st fuel c)
      else [])

/-- The rendering loop of `DriveManager.list_files`: sort the top-level
entries by the sibling key and print each tree at level 0. -/
def printForest (files : List RawFile) (st : BuildState) (fuel : Nat) : List Line :=
  (sortSiblings files (rootsIdx st)).flatMap (fun r => printTree files st fuel r 0)

/-- `_print_tree` with the record structure threaded through explicitly, to
state that printing returns the structure it was given (the source never
mutates a node while printing: `sorted` builds a fresh list). Processes a
worklist of sibling positions at one level. -/
def printNodesS (files : List RawFile) : Nat → BuildState → List Nat → Nat → List Line × BuildState
  | 0, st, _, _ => ([], st)
  | _ + 1, st, [], _ => ([], st)
  | fuel + 1, st, i :: rest, level =>
    let f := files.getD i default
    let line : Line := { level := level, isFolder := f.isFolder, name := f.name, id := f.id }
    let resChild :=
      if f.isFolder && !(childrenOf st i).isEmpty then
        printNodesS files fuel st (sortSiblings files (childrenOf st i)) (level + 1)
      else ([], st)
    let resRest := printNodesS files (fuel + 1) resChild.2 rest level
    (line :: (resChild.1 ++ resRest.1), resRest.2)
termination_by fuel _ l _ => (fuel, l.length)

/-- The full render of `list_files` in the state-threaded presentation. -/
def printForestS (files : List RawFile) (st : BuildState) (fuel : Nat) : List Line × BuildState :=
  printNodesS files fuel st (sortSiblings files (rootsIdx st)) 0

/-- Spec-side predicate: the batch contains a record with this id whose
type is Folder ("resolves to a fetched Folder"). -/
def isFolderId (files : List RawFile) (pid : String) : Bool :=
  files.any (fun f => f.id == pid && f.isFolder)

/-- Stated from the spec's words, for refinement comparison with the code's
scan: "the *first* entry (in the fetched record's own parent-list
ordering) among the fetched record's parents that resolves to a fetched
Folder". -/
def specFirstFolderParent (files : List RawFile) : List String → Option String
  | [] => none
  | pid :: rest =>
    if isFolderId files pid then some pid else specFirstFolderParent files rest

instance {ε α : Type} [DecidableEq ε] [DecidableEq α] : DecidableEq (Except ε α) := fun a b =>
  match a, b with
  | Except.error x, Except.error y =>
      if h : x = y then Decidable.isTrue (by rw [h]) else
        Decidable.isFalse (by intro hc; cases hc; exact h rfl)
  | Except.ok x, Except.ok y =>
      if h : x = y then Decidable.isTrue (by rw [h]) else
        Decidable.isFalse (by intro hc; cases hc; exact h rfl)
  | Except.error _, Except.ok _ => Decidable.isFalse (by intro hc; cases hc)
  | Except.ok _, Except.error _ => Decidable.isFalse (by intro hc; cases hc)

/-- The batch has pairwise distinct ids (the spec's input constraint). -/
def NodupIds (files : List RawFile) : Prop := List.Nodup (files.map RawFile.id)

instance (files : List RawFile) : Decidable (NodupIds files) :=
  inferInstanceAs (Decidable (List.Nodup (files.map RawFile.id)))

/-- The id of the record at position `i`. -/
def idOf (files : List RawFile) (i : Nat) : String := (files.getD i default).id

/-- How many times position `i` occurs across all children lists. -/
def attachedCount (files : List RawFile) (st : BuildState) (i : Nat) : Nat :=
  ((List.range files.length).map (fun j => (childrenOf st j).count i)).sum

/-- The child/parent attachment relation at the level of record ids. -/
def attachedIds (files : List RawFile) (st : BuildState) (c p : String) : Prop :=
  ∃ i ∈ List.range files.length, ∃ j ∈ List.range files.length,
    i ∈ childrenOf st j ∧ idOf files i = c ∧ idOf files j = p

/-- Closed form of the state reached after processing the first `m`
records, provided no iteration raised: each children list collects, in
fetch order, the already-processed records whose scan chose it, and the
top-level dictionary collects, in fetch order, the records whose scan
fell through. -/
def stChar (files : List RawFile) (m : Nat) : BuildState :=
  { children := (List.range files.length).map
      (fun j => (List.range m).filter (fun i => decide (outcome files i = Except.ok (some j))))
    tree := ((List.range m).filter (fun i => decide (outcome files i = Except.ok none))).map
      (fun i => (idOf files i, i)) }

/-! ### Basic facts about ids and `file_map` lookup -/

theorem getD_lt {α : Type} [Inhabited α] (l : List α) (j : Nat) (h : j < l.length) :
    l.getD j default = l[j] := by
  rw [List.getD_eq_getElem?_getD, List.getElem?_eq_getElem h]
  rfl

theorem lastIdxOf_lt_length (files : List RawFile) (pid : String) (j : Nat)
    (h : lastIdxOf files pid = some j) : j < files.length := by
  induction files generalizing j with
  | nil => simp [lastIdxOf] at h
  | cons f rest ih =>
    rw [lastIdxOf] at h
    cases hr : lastIdxOf rest pid with
    | some k =>
      rw [hr] at h
      cases h
      have := ih k hr
      simp only [List.length_cons]
      omega
    | none =>
      rw [hr] at h
      by_cases hid : f.id = pid
      · simp [hid] at h
        cases h
        simp
      · simp [hid] at h

theorem lastIdxOf_id (files : List RawFile) (pid : String) (j : Nat)
    (h : lastIdxOf files pid = some j) : idOf files j = pid := by
  induction files generalizing j with
  | nil => simp [lastIdxOf] at h
  | cons f rest ih =>
    rw [lastIdxOf] at h
    cases hr : lastIdxOf rest pid with
    | some k =>
      rw [hr] at h
      cases h
      have := ih k hr
      simpa [idOf, List.getD_cons_succ] using this
    | none =>
      rw [hr] at h
      by_cases hid : f.id = pid
      · simp [hid] at h
        cases h
        simpa [idOf] using hid
      · simp [hid] at h

theorem lastIdxOf_eq_none_iff (files : List RawFile) (pid : String) :
    lastIdxOf files pid = none ↔ ∀ f ∈ files, f.id ≠ pid := by
  induction files with
  | nil => simp [lastIdxOf]
  | cons f rest ih =>
    rw [lastIdxOf]
    cases hr : lastIdxOf rest pid with
    | some k =>
      simp only [reduceCtorEq, false_iff]
      intro hall
      have : ∀ g ∈ rest, g.id ≠ pid := fun g hg => hall g (List.mem_cons_of_mem f hg)
      rw [← ih] at this
      rw [this] at hr
      cases hr
    | none =>
      by_cases hid : f.id = pid
      · rw [if_pos hid]
        simp only [reduceCtorEq, false_iff]
        intro hall
        exact hall f (List.mem_cons_self f rest) hid
      · rw [if_neg hid]
        simp only [true_iff]
        intro g hg
        rcases List.mem_cons.mp hg with h1 | h2
        · rw [h1]; exact hid
        · exact (ih.mp hr) g h2

theorem id_inj (files : List RawFile) (hu : NodupIds files) (k l : Nat)
    (hk : k < files.length) (hl : l < files.length)
    (h : idOf files k = idOf files l) : k = l := by
  have hk' : k < (files.map RawFile.id).length := by simpa using hk
  have hl' : l < (files.map RawFile.id).length := by simpa using hl
  have hmk : (files.map RawFile.id)[k] = idOf files k := by
    rw [List.getElem_map]; rw [idOf, getD_lt files k hk]
  have hml : (files.map RawFile.id)[l] = idOf files l := by
    rw [List.getElem_map]; rw [idOf, getD_lt files l hl]
  have : (files.map RawFile.id)[k] = (files.map RawFile.id)[l] := by
    rw [hmk, hml, h]
  exact (hu.getElem_inj_iff).mp this

theorem lastIdxOf_of_id (files : List RawFile) (hu : NodupIds files) (k : Nat)
    (hk : k < files.length) : lastIdxOf files (idOf files k) = some k := by
  cases hlast : lastIdxOf files (idOf files k) with
  | none =>
    exfalso
    have hall := (lastIdxOf_eq_none_iff files (idOf files k)).mp hlast
    have hmem : files[k] ∈ files := List.getElem_mem hk
    have : files[k].id ≠ idOf files k := hall files[k] hmem
    rw [idOf, getD_lt files k hk] at this
    exact this rfl
  | some j =>
    have hj := lastIdxOf_lt_length files _ j hlast
    have hid := lastIdxOf_id files _ j hlast
    rw [id_inj files hu j k hj hk hid]

/-! ### The parent scan against the spec's "first resolvable folder parent" -/

theorem scanLoop_cons_none (files : List RawFile) (i : Nat) (pid : String) (rest : List String)
    (h : lastIdxOf files pid = none) :
    scanLoop files i (pid :: rest) = scanLoop files i rest := by
  rw [scanLoop, h]

theorem scanLoop_cons_some (files : List RawFile) (i : Nat) (pid : String) (rest : List String)
    (k : Nat) (h : lastIdxOf files pid = some k) :
    scanLoop files i (pid :: rest) =
      if k ≤ i then
        if (files.getD k default).isFolder then Except.ok (some k)
        else scanLoop files i rest
      else Except.error () := by
  rw [scanLoop, h]

theorem scanLoop_ok_some (files : List RawFile) (i : Nat) (ps : List String) (j : Nat)
    (h : scanLoop files i ps = Except.ok (some j)) :
    j ≤ i ∧ j < files.length ∧ (files.getD j default).isFolder = true := by
  induction ps with
  | nil => simp [scanLoop] at h
  | cons pid rest ih =>
    cases hl : lastIdxOf files pid with
    | none =>
      rw [scanLoop_cons_none files i pid rest hl] at h
      exact ih h
    | some k =>
      rw [scanLoop_cons_some files i pid rest k hl] at h
      by_cases hki : k ≤ i
      · rw [if_pos hki] at h
        by_cases hf : (files.getD k default).isFolder = true
        · rw [if_pos hf] at h
          have hkj : k = j := by injection h with h2; injection h2
          subst hkj
          exact ⟨hki, lastIdxOf_lt_length files pid k hl, hf⟩
        · rw [if_neg hf] at h
          exact ih h
      · rw [if_neg hki] at h
        cases h

theorem isFolderId_of_none (files : List RawFile) (pid : String)
    (h : lastIdxOf files pid = none) : isFolderId files pid = false := by
  have hall := (lastIdxOf_eq_none_iff files pid).mp h
  rw [isFolderId]
  rw [List.any_eq_false]
  intro f hf
  simp only [Bool.and_eq_true, beq_iff_eq, not_and]
  intro hid
  exact absurd hid (hall f hf)

theorem isFolderId_of_some (files : List RawFile) (hu : NodupIds files) (pid : String) (k : Nat)
    (h : lastIdxOf files pid = some k) :
    isFolderId files pid = (files.getD k default).isFolder := by
  have hk := lastIdxOf_lt_length files pid k h
  have hid := lastIdxOf_id files pid k h
  cases hf : (files.getD k default).isFolder with
  | true =>
    rw [isFolderId, List.any_eq_true]
    refine ⟨files.getD k default, ?_, ?_⟩
    · rw [getD_lt files k hk]; exact List.getElem_mem hk
    · simp only [Bool.and_eq_true, beq_iff_eq]
      exact ⟨hid, hf⟩
  | false =>
    rw [isFolderId, List.any_eq_false]
    intro g hg
    simp only [Bool.and_eq_true, beq_iff_eq, not_and]
    intro hgid hgf
    rcases List.mem_iff_getElem.mp hg with ⟨l, hl, hgl⟩
    have hlid : idOf files l = pid := by rw [idOf, getD_lt files l hl, hgl, hgid]
    have hlk : l = k := id_inj files hu l k hl hk (by rw [hlid, hid])
    rw [← hgl, ← getD_lt files l hl] at hgf
    rw [hlk] at hgf
    rw [hgf] at hf
    cases hf

theorem scanLoop_some_spec (files : List RawFile) (hu : NodupIds files) (i : Nat)
    (ps : List String) (j : Nat) (h : scanLoop files i ps = Except.ok (some j)) :
    specFirstFolderParent files ps = some (idOf files j) := by
  induction ps with
  | nil => simp [scanLoop] at h
  | cons pid rest ih =>
    rw [specFirstFolderParent]
    cases hl : lastIdxOf files pid with
    | none =>
      rw [scanLoop_cons_none files i pid rest hl] at h
      rw [isFolderId_of_none files pid hl]
      simp only [Bool.false_eq_true, if_false]
      exact ih h
    | some k =>
      rw [scanLoop_cons_some files i pid rest k hl] at h
      by_cases hki : k ≤ i
      · rw [if_pos hki] at h
        rw [isFolderId_of_some files hu pid k hl]
        by_cases hf : (files.getD k default).isFolder = true
        · rw [if_pos hf] at h
          have hkj : k = j := by injection h with h2; injection h2
          subst hkj
          rw [if_pos hf, lastIdxOf_id files pid k hl]
        · rw [if_neg hf] at h
          rw [Bool.not_eq_true] at hf
          rw [hf]
          simp only [Bool.false_eq_true, if_false]
          exact ih h
      · rw [if_neg hki] at h
        cases h

theorem scanLoop_none_spec (files : List RawFile) (hu : NodupIds files) (i : Nat)
    (ps : List String) (h : scanLoop files i ps = Except.ok none) :
    specFirstFolderParent files ps = none := by
  induction ps with
  | nil => rfl
  | cons pid rest ih =>
    rw [specFirstFolderParent]
    cases hl : lastIdxOf files pid with
    | none =>
      rw [scanLoop_cons_none files i pid rest hl] at h
      rw [isFolderId_of_none files pid hl]
      simp only [Bool.false_eq_true, if_false]
      exact ih h
    | some k =>
      rw [scanLoop_cons_some files i pid rest k hl] at h
      by_cases hki : k ≤ i
      · rw [if_pos hki] at h
        rw [isFolderId_of_some files hu pid k hl]
        by_cases hf : (files.getD k default).isFolder = true
        · rw [if_pos hf] at h; cases h
        · rw [if_neg hf] at h
          rw [Bool.not_eq_true] at hf
          rw [hf]
          simp only [Bool.false_eq_true, if_false]
          exact ih h
      · rw [if_neg hki] at h
        cases h

theorem specFirstFolderParent_some (files : List RawFile) (ps : List String) (q : String)
    (h : specFirstFolderParent files ps = some q) :
    isFolderId files q = true ∧ q ∈ ps := by
  induction ps with
  | nil => simp [specFirstFolderParent] at h
  | cons pid rest ih =>
    rw [specFirstFolderParent] at h
    by_cases hf : isFolderId files pid = true
    · rw [if_pos hf] at h
      have hpq : pid = q := by injection h
      subst hpq
      exact ⟨hf, List.mem_cons_self pid rest⟩
    · rw [if_neg hf] at h
      rcases ih h with ⟨h1, h2⟩
      exact ⟨h1, List.mem_cons_of_mem pid h2⟩

/-! ### Closed form of the state built by the loop -/

theorem buildStep_some (files : List RawFile) (st : BuildState) (i j : Nat)
    (h : outcome files i = Except.ok (some j)) :
    buildStep files st i = Except.ok (BuildState.mk
      ((st.children.set i []).set j ((st.children.set i []).getD j [] ++ [i])) st.tree) := by
  unfold buildStep
  rw [h]
  rfl

theorem buildStep_none (files : List RawFile) (st : BuildState) (i : Nat)
    (h : outcome files i = Except.ok none) :
    buildStep files st i = Except.ok (BuildState.mk (st.children.set i [])
      (dictInsert (files.getD i default).id i st.tree)) := by
  unfold buildStep
  rw [h]

theorem buildStep_error (files : List RawFile) (st : BuildState) (i : Nat)
    (h : outcome files i = Except.error ()) :
    buildStep files st i = Except.error () := by
  unfold buildStep
  rw [h]

theorem outcome_some_le (files : List RawFile) (i j : Nat)
    (h : outcome files i = Except.ok (some j)) :
    j ≤ i ∧ j < files.length ∧ (files.getD j default).isFolder = true :=
  scanLoop_ok_some files i _ j h

theorem buildAux_step_ok (files : List RawFile) (st st' : BuildState) (i todo : Nat)
    (h : buildStep files st i = Except.ok st') :
    buildAux files st i (todo + 1) = buildAux files st' (i + 1) todo := by
  rw [buildAux, h]

theorem buildAux_step_error (files : List RawFile) (st : BuildState) (i todo : Nat)
    (h : buildStep files st i = Except.error ()) :
    buildAux files st i (todo + 1) = Except.error () := by
  rw [buildAux, h]

theorem getD_map_range {α : Type} (g : Nat → α) (n j : Nat) (d : α) :
    ((List.range n).map g).getD j d = if j < n then g j else d := by
  rw [List.getD_eq_getElem?_getD, List.getElem?_map]
  by_cases hj : j < n
  · rw [List.getElem?_range hj]
    simp [hj]
  · rw [List.getElem?_eq_none (by simpa using Nat.le_of_not_lt hj)]
    simp [hj]

theorem map_range_set {α : Type} (g : Nat → α) (n j : Nat) (v : α) :
    ((List.range n).map g).set j v = (List.range n).map (fun k => if k = j then v else g k) := by
  apply List.ext_getElem
  · simp
  · intro k hk1 hk2
    have hkn : k < n := by simpa using hk2
    simp only [List.getElem_set, List.getElem_map, List.getElem_range]
    by_cases hkj : j = k
    · rw [if_pos hkj, if_pos hkj.symm]
    · rw [if_neg hkj, if_neg (fun hc => hkj hc.symm)]

theorem childrenOf_stChar (files : List RawFile) (m j : Nat) :
    childrenOf (stChar files m) j =
      if j < files.length then
        (List.range m).filter (fun i => decide (outcome files i = Except.ok (some j)))
      else [] := by
  rw [childrenOf, stChar]
  exact getD_map_range _ files.length j []

theorem filter_outcome_ge (files : List RawFile) (m j : Nat) (hj : m ≤ j) :
    (List.range m).filter (fun i => decide (outcome files i = Except.ok (some j))) = [] := by
  rw [List.filter_eq_nil_iff]
  intro i hi
  simp only [decide_eq_true_eq]
  intro hc
  have := (outcome_some_le files i j hc).1
  have := List.mem_range.mp hi
  omega

theorem dictInsert_fresh (k : String) (v : Nat) : ∀ (l : List (String × Nat)),
    (∀ p ∈ l, p.1 ≠ k) → dictInsert k v l = l ++ [(k, v)] := by
  intro l
  induction l with
  | nil => intro _; rfl
  | cons p rest ih =>
    intro hall
    cases p with
    | mk k0 v0 =>
      have hne : k0 ≠ k := hall (k0, v0) (List.mem_cons_self _ _)
      rw [dictInsert, if_neg hne]
      rw [ih (fun q hq => hall q (List.mem_cons_of_mem _ hq))]
      rfl

theorem stChar_tree_mem (files : List RawFile) (m : Nat) (p : String × Nat)
    (hp : p ∈ (stChar files m).tree) :
    p.1 = idOf files p.2 ∧ p.2 < m ∧ outcome files p.2 = Except.ok none := by
  rw [stChar] at hp
  simp only [List.mem_map, List.mem_filter, List.mem_range, decide_eq_true_eq] at hp
  rcases hp with ⟨i, ⟨hi, ho⟩, hpi⟩
  rw [← hpi]
  exact ⟨rfl, hi, ho⟩

theorem buildState_eq (a b : BuildState) (h1 : a.children = b.children)
    (h2 : a.tree = b.tree) : a = b := by
  cases a; cases b
  simp only at h1 h2
  rw [h1, h2]

theorem stChar_children_reset (files : List RawFile) (m : Nat) :
    (stChar files m).children.set m [] = (stChar files m).children := by
  show ((List.range files.length).map _).set m [] = _
  rw [map_range_set]
  apply List.map_congr_left
  intro k _
  by_cases hk : k = m
  · rw [if_pos hk, hk, filter_outcome_ge files m m (le_refl m)]
  · rw [if_neg hk]

theorem filter_singleton_decide (p : Nat → Bool) (m : Nat) :
    List.filter p [m] = if p m then [m] else [] := by
  cases hp : p m <;> simp [List.filter, hp]

theorem stChar_step_some (files : List RawFile) (m j : Nat) (hm : m < files.length)
    (h : outcome files m = Except.ok (some j)) :
    buildStep files (stChar files m) m = Except.ok (stChar files (m + 1)) := by
  rcases outcome_some_le files m j h with ⟨hjm, hjn, _⟩
  rw [buildStep_some files (stChar files m) m j h]
  congr 1
  apply buildState_eq
  · show ((stChar files m).children.set m []).set j _ = _
    rw [stChar_children_reset]
    show ((List.range files.length).map _).set j
        (((List.range files.length).map _).getD j [] ++ [m]) = _
    rw [getD_map_range, if_pos hjn, map_range_set]
    apply List.map_congr_left
    intro k hk
    have hkn : k < files.length := List.mem_range.mp hk
    rw [List.range_succ, List.filter_append, filter_singleton_decide]
    by_cases hkj : k = j
    · subst hkj
      simp [h]
    · rw [if_neg hkj]
      have hne : outcome files m ≠ Except.ok (some k) := by
        rw [h]
        intro hc
        injection hc with hc2
        injection hc2 with hc3
        exact hkj hc3.symm
      rw [if_neg (by simpa using hne)]
      rw [List.append_nil]
  · show (stChar files m).tree = _
    show _ = (((List.range (m+1)).filter _).map _)
    rw [List.range_succ, List.filter_append, filter_singleton_decide]
    rw [if_neg (by simp [h])]
    rw [List.append_nil]
    rfl

theorem stChar_step_none (files : List RawFile) (hu : NodupIds files) (m : Nat)
    (hm : m < files.length) (h : outcome files m = Except.ok none) :
    buildStep files (stChar files m) m = Except.ok (stChar files (m + 1)) := by
  rw [buildStep_none files (stChar files m) m h]
  congr 1
  apply buildState_eq
  · show (stChar files m).children.set m [] = _
    rw [stChar_children_reset]
    show (List.range files.length).map _ = (List.range files.length).map _
    apply List.map_congr_left
    intro k hk
    rw [List.range_succ, List.filter_append, filter_singleton_decide]
    rw [if_neg (by simp [h])]
    rw [List.append_nil]
  · show dictInsert (files.getD m default).id m (stChar files m).tree = _
    have hfresh : ∀ p ∈ (stChar files m).tree, p.1 ≠ (files.getD m default).id := by
      intro p hp
      rcases stChar_tree_mem files m p hp with ⟨hp1, hp2, _⟩
      rw [hp1]
      intro hc
      have : p.2 = m := id_inj files hu p.2 m (by omega) hm hc
      omega
    rw [dictInsert_fresh _ _ _ hfresh]
    show _ = (((List.range (m+1)).filter _).map _)
    rw [List.range_succ, List.filter_append, filter_singleton_decide]
    rw [if_pos (by simp [h])]
    rw [List.map_append]
    rfl

theorem buildAux_char (files : List RawFile) (hu : NodupIds files) :
    ∀ (todo m : Nat) (st : BuildState), m + todo ≤ files.length →
    buildAux files (stChar files m) m todo = Except.ok st →
    (∀ i, m ≤ i → i < m + todo → outcome files i ≠ Except.error ()) ∧
      st = stChar files (m + todo) := by
  intro todo
  induction todo with
  | zero =>
    intro m st _ h
    rw [buildAux] at h
    injection h with h
    constructor
    · intro i h1 h2
      omega
    · rw [← h, Nat.add_zero]
  | succ t ih =>
    intro m st hmt h
    have hm : m < files.length := by omega
    cases ho : outcome files m with
    | error e =>
      cases e
      rw [buildAux_step_error files _ m t (buildStep_error files _ m ho)] at h
      cases h
    | ok oj =>
      cases oj with
      | some j =>
        rw [buildAux_step_ok files _ _ m t (stChar_step_some files m j hm ho)] at h
        have := ih (m + 1) st (by omega) h
        rcases this with ⟨hok, hst⟩
        constructor
        · intro i h1 h2
          by_cases him : i = m
          · subst him
            rw [ho]
            intro hc
            cases hc
          · exact hok i (by omega) (by omega)
        · rw [hst]
          congr 1
          omega
      | none =>
        rw [buildAux_step_ok files _ _ m t (stChar_step_none files hu m hm ho)] at h
        have := ih (m + 1) st (by omega) h
        rcases this with ⟨hok, hst⟩
        constructor
        · intro i h1 h2
          by_cases him : i = m
          · subst him
            rw [ho]
            intro hc
            cases hc
          · exact hok i (by omega) (by omega)
        · rw [hst]
          congr 1
          omega

theorem initState_eq_stChar (files : List RawFile) : initState files = stChar files 0 := by
  apply buildState_eq
  · show List.replicate files.length [] = (List.range files.length).map _
    symm
    rw [List.eq_replicate_iff]
    constructor
    · simp
    · intro b hb
      rcases List.mem_map.mp hb with ⟨k, _, hk⟩
      rw [← hk]
      rfl
  · rfl

theorem buildTree_char (files : List RawFile) (hu : NodupIds files) (st : BuildState)
    (hb : buildTree files = Except.ok st) :
    (∀ i < files.length, outcome files i ≠ Except.error ()) ∧
      st = stChar files files.length := by
  rw [buildTree, initState_eq_stChar] at hb
  have := buildAux_char files hu files.length 0 st (by omega) (by simpa using hb)
  rcases this with ⟨hok, hst⟩
  constructor
  · intro i hi
    exact hok i (by omega) (by omega)
  · rw [hst]
    congr 1
    omega

theorem mem_childrenOf_char (files : List RawFile) (m i j : Nat) :
    i ∈ childrenOf (stChar files m) j ↔
      j < files.length ∧ i < m ∧ outcome files i = Except.ok (some j) := by
  rw [childrenOf_stChar]
  by_cases hj : j < files.length
  · rw [if_pos hj]
    rw [List.mem_filter, List.mem_range]
    simp only [decide_eq_true_eq]
    constructor
    · intro ⟨h1, h2⟩; exact ⟨hj, h1, h2⟩
    · intro ⟨_, h1, h2⟩; exact ⟨h1, h2⟩
  · rw [if_neg hj]
    simp only [List.not_mem_nil, false_iff, not_and]
    intro hc
    exact absurd hc hj

theorem rootsIdx_stChar (files : List RawFile) (m : Nat) :
    rootsIdx (stChar files m) =
      (List.range m).filter (fun i => decide (outcome files i = Except.ok none)) := by
  rw [rootsIdx, stChar]
  rw [List.map_map]
  have hid : (Prod.snd ∘ fun i => (idOf files i, i)) = id := rfl
  rw [hid, List.map_id]

theorem mem_rootsIdx_char (files : List RawFile) (m i : Nat) :
    i ∈ rootsIdx (stChar files m) ↔ i < m ∧ outcome files i = Except.ok none := by
  rw [rootsIdx_stChar, List.mem_filter, List.mem_range]
  simp only [decide_eq_true_eq]

theorem outcome_def (files : List RawFile) (i : Nat) :
    outcome files i = scanLoop files i (files.getD i default).getParents := rfl

theorem count_filter_eq (p : Nat → Bool) (l : List Nat) (a : Nat) :
    (l.filter p).count a = if p a then l.count a else 0 := by
  by_cases hp : p a = true
  · rw [if_pos hp]
    exact List.count_filter hp
  · rw [if_neg hp]
    rw [List.count_eq_zero]
    intro hc
    exact hp (List.of_mem_filter hc)

theorem sum_map_ite_eq (l : List Nat) (x : Nat) :
    (l.map (fun j => if j = x then 1 else 0)).sum = l.count x := by
  induction l with
  | nil => rfl
  | cons a rest ih =>
    rw [List.map_cons, List.sum_cons, ih, List.count_cons]
    by_cases hax : a = x
    · simp [hax, Nat.add_comm]
    · have : ¬(x == a) = true := by simp; intro hc; exact hax hc.symm
      simp [hax, this]

theorem sum_map_zero (l : List Nat) : (l.map (fun _ => (0 : Nat))).sum = 0 := by
  induction l with
  | nil => rfl
  | cons a rest ih => rw [List.map_cons, List.sum_cons, ih]

/-- C1: for a batch with unique identifiers on which the build completes,
a record is attached as a child of the record at position `j` if and only
if that record's identifier is the first entry of the record's own
parent-identifier list that resolves to a fetched Folder, so at most one
attachment point is ever chosen. -/
theorem claim1_attach_iff_first_resolvable_folder_parent
    (files : List RawFile) (st : BuildState)
    (hu : NodupIds files) (hb : buildTree files = Except.ok st)
    (i j : Nat) (hi : i < files.length) (hj : j < files.length) :
    i ∈ childrenOf st j ↔
      specFirstFolderParent files (files.getD i default).getParents =
        some (idOf files j) := by
  rcases buildTree_char files hu st hb with ⟨hok, hst⟩
  subst hst
  rw [mem_childrenOf_char]
  constructor
  · intro ⟨_, _, ho⟩
    rw [outcome_def] at ho
    exact scanLoop_some_spec files hu i _ j ho
  · intro hspec
    refine ⟨hj, hi, ?_⟩
    cases ho : outcome files i with
    | error e =>
      cases e
      exact absurd ho (hok i hi)
    | ok oj =>
      rw [outcome_def] at ho
      cases oj with
      | none =>
        rw [scanLoop_none_spec files hu i _ ho] at hspec
        cases hspec
      | some j' =>
        have hs := scanLoop_some_spec files hu i _ j' ho
        rw [hs] at hspec
        injection hspec with heq
        have hj' : j' < files.length := (scanLoop_ok_some files i _ j' ho).2.1
        have hjeq : j' = j := id_inj files hu j' j hj' hj heq
        subst hjeq
        rfl

/-- C1 witness: a two-record batch where the second record names the first
record (a folder) as its parent; the attachment biconditional holds at the
concrete positions. -/
theorem claim1_attach_iff_first_resolvable_folder_parent_witness :
    1 ∈ childrenOf (BuildState.mk [[1], []] [("f1", 0)]) 0 ↔
      specFirstFolderParent
        [RawFile.mk "f1" "docs" folderMimeType none,
         RawFile.mk "f2" "a.txt" "text/plain" (some ["f1"])]
        (([RawFile.mk "f1" "docs" folderMimeType none,
           RawFile.mk "f2" "a.txt" "text/plain" (some ["f1"])].getD 1 default).getParents) =
        some (idOf [RawFile.mk "f1" "docs" folderMimeType none,
                    RawFile.mk "f2" "a.txt" "text/plain" (some ["f1"])] 0) :=
  claim1_attach_iff_first_resolvable_folder_parent
    [RawFile.mk "f1" "docs" folderMimeType none,
     RawFile.mk "f2" "a.txt" "text/plain" (some ["f1"])]
    (BuildState.mk [[1], []] [("f1", 0)])
    (by decide) (by decide) 1 0 (by decide) (by decide)

/-- C2: after a completed build over a batch with unique identifiers,
every record either sits in exactly one children list and is absent from
the top-level tree, or sits exactly once in the top-level tree and in no
children list. -/
theorem claim2_every_record_in_exactly_one_place
    (files : List RawFile) (st : BuildState)
    (hu : NodupIds files) (hb : buildTree files = Except.ok st) :
    ∀ i < files.length,
      (attachedCount files st i = 1 ∧ (rootsIdx st).count i = 0) ∨
      (attachedCount files st i = 0 ∧ (rootsIdx st).count i = 1) := by
  intro i hi
  rcases buildTree_char files hu st hb with ⟨hok, hst⟩
  subst hst
  have hcount1 : (List.range files.length).count i = 1 :=
    List.count_eq_one_of_mem (List.nodup_range files.length) (List.mem_range.mpr hi)
  have hchild : ∀ j, j < files.length →
      (childrenOf (stChar files files.length) j).count i =
        if decide (outcome files i = Except.ok (some j)) then 1 else 0 := by
    intro j hj
    rw [childrenOf_stChar, if_pos hj, count_filter_eq]
    by_cases hd : decide (outcome files i = Except.ok (some j)) = true
    · rw [if_pos hd, if_pos hd, hcount1]
    · rw [if_neg hd, if_neg hd]
  have hroots : (rootsIdx (stChar files files.length)).count i =
      if decide (outcome files i = Except.ok none) then 1 else 0 := by
    rw [rootsIdx_stChar, count_filter_eq]
    by_cases hd : decide (outcome files i = Except.ok none) = true
    · rw [if_pos hd, if_pos hd, hcount1]
    · rw [if_neg hd, if_neg hd]
  cases ho : outcome files i with
  | error e =>
    cases e
    exact absurd ho (hok i hi)
  | ok oj =>
    cases oj with
    | some j0 =>
      have hj0 : j0 < files.length := (outcome_some_le files i j0 ho).2.1
      left
      constructor
      · rw [attachedCount]
        have hmc : (List.range files.length).map
            (fun j => (childrenOf (stChar files files.length) j).count i) =
            (List.range files.length).map (fun j => if j = j0 then 1 else 0) := by
          apply List.map_congr_left
          intro j hj
          rw [hchild j (List.mem_range.mp hj)]
          by_cases hjj : j = j0
          · subst hjj
            rw [if_pos (by simp [ho]), if_pos rfl]
          · rw [if_neg hjj]
            have hne : outcome files i ≠ Except.ok (some j) := by
              rw [ho]
              intro hc
              injection hc with hc2
              injection hc2 with hc3
              exact hjj hc3.symm
            rw [if_neg (by simpa using hne)]
        have hcountj0 : (List.range files.length).count j0 = 1 :=
          List.count_eq_one_of_mem (List.nodup_range files.length) (List.mem_range.mpr hj0)
        rw [hmc, sum_map_ite_eq, hcountj0]
      · rw [hroots, if_neg (by simp [ho])]
    | none =>
      right
      constructor
      · rw [attachedCount]
        have hmc : (List.range files.length).map
            (fun j => (childrenOf (stChar files files.length) j).count i) =
            (List.range files.length).map (fun _ => (0 : Nat)) := by
          apply List.map_congr_left
          intro j hj
          rw [hchild j (List.mem_range.mp hj)]
          rw [if_neg (by simp [ho])]
        rw [hmc, sum_map_zero]
      · rw [hroots, if_pos (by simp [ho])]

/-- C2 witness: in a concrete two-record build, the attached record counts
once across children lists and zero times among the roots. -/
theorem claim2_every_record_in_exactly_one_place_witness :
    (attachedCount
        [RawFile.mk "g1" "docs" folderMimeType none,
         RawFile.mk "g2" "b.txt" "text/plain" (some ["g1"])]
        (BuildState.mk [[1], []] [("g1", 0)]) 1 = 1 ∧
      (rootsIdx (BuildState.mk [[1], []] [("g1", 0)])).count 1 = 0) ∨
    (attachedCount
        [RawFile.mk "g1" "docs" folderMimeType none,
         RawFile.mk "g2" "b.txt" "text/plain" (some ["g1"])]
        (BuildState.mk [[1], []] [("g1", 0)]) 1 = 0 ∧
      (rootsIdx (BuildState.mk [[1], []] [("g1", 0)])).count 1 = 1) :=
  claim2_every_record_in_exactly_one_place
    [RawFile.mk "g1" "docs" folderMimeType none,
     RawFile.mk "g2" "b.txt" "text/plain" (some ["g1"])]
    (BuildState.mk [[1], []] [("g1", 0)])
    (by decide) (by decide) 1 (by decide)

/-- C3: the claim that no input shape can raise is contradicted by the
source: when a record names an in-batch parent that occurs later in the
batch, the builder reads the parent's not-yet-assigned `is_folder` key and
raises `KeyError`; the embedding returns the error value on that batch. -/
theorem claim3_builder_raises_on_forward_parent_reference :
    buildTree [RawFile.mk "x1" "x" "text/plain" (some ["x2"]),
               RawFile.mk "x2" "y" folderMimeType none] = Except.error () := by
  decide

/-- C6: the claim that a record with no resolvable folder parent is placed
top-level with no error signalled is contradicted by the source when the
non-folder parent sits later in the batch: the scan still reads the
not-yet-assigned `is_folder` key of the in-batch parent and raises
`KeyError` before it can conclude the parent is not a folder. The second
conjunct checks the claim's antecedent: no entry of the record's parent
list resolves to a fetched Folder. -/
theorem claim6_unresolved_parent_can_still_raise :
    buildTree [RawFile.mk "u1" "u" "text/plain" (some ["u2"]),
               RawFile.mk "u2" "v" "text/plain" none] = Except.error () ∧
    specFirstFolderParent
      [RawFile.mk "u1" "u" "text/plain" (some ["u2"]),
       RawFile.mk "u2" "v" "text/plain" none]
      (RawFile.getParents (RawFile.mk "u1" "u" "text/plain" (some ["u2"]))) = none := by
  constructor
  · decide
  · decide

/-! ### Printer lemmas -/

theorem count_flatMap_eq (x : Nat) (l : List Nat) (f : Nat → List Nat) :
    ((l.flatMap f).count x) = (l.map (fun a => (f a).count x)).sum := by
  induction l with
  | nil => rfl
  | cons a rest ih =>
    rw [List.flatMap_cons, List.count_append, List.map_cons, List.sum_cons, ih]

theorem flatMap_replicate_eq (x : Nat) (l : List Nat) (h : Nat → Nat) :
    l.flatMap (fun d => List.replicate (h d) x) = List.replicate ((l.map h).sum) x := by
  induction l with
  | nil => rfl
  | cons a rest ih =>
    rw [List.flatMap_cons, List.map_cons, List.sum_cons, List.replicate_add, ih]

theorem printTree_length_eq_preorder (files : List RawFile) (st : BuildState) :
    ∀ (fuel i level : Nat),
      (printTree files st fuel i level).length = (preorder files st fuel i).length := by
  intro fuel
  induction fuel with
  | zero => intro i level; rfl
  | succ f ih =>
    intro i level
    rw [printTree, preorder]
    by_cases hg : ((files.getD i default).isFolder && !(childrenOf st i).isEmpty) = true
    · rw [if_pos hg, if_pos hg]
      simp only [List.length_cons]
      rw [List.length_flatMap, List.length_flatMap]
      have hmaps : List.map (List.length ∘ fun c => printTree files st f c (level + 1))
            (sortSiblings files (childrenOf st i)) =
          List.map (List.length ∘ fun c => preorder files st f c)
            (sortSiblings files (childrenOf st i)) := by
        apply List.map_congr_left
        intro c _
        simp only [Function.comp]
        exact ih c (level + 1)
      rw [hmaps]
    · rw [if_neg hg, if_neg hg]
      rfl

theorem preorder_elems (files : List RawFile) (st : BuildState)
    (hstrict : ∀ a b, b ∈ childrenOf st a → a < b) :
    ∀ (fuel i x : Nat), x ∈ preorder files st fuel i → i ≤ x := by
  intro fuel
  induction fuel with
  | zero => intro i x hx; cases hx
  | succ f ih =>
    intro i x hx
    rw [preorder] at hx
    rcases List.mem_cons.mp hx with h1 | h2
    · omega
    · by_cases hg : ((files.getD i default).isFolder && !(childrenOf st i).isEmpty) = true
      · rw [if_pos hg] at h2
        rcases List.mem_flatMap.mp h2 with ⟨c, hc, hxc⟩
        have hc' : c ∈ childrenOf st i := by
          rw [sortSiblings] at hc
          exact (List.mem_insertionSort (sibLe files)).mp hc
        have h1 : i < c := hstrict i c hc'
        have h2 : c ≤ x := ih c x hxc
        omega
      · rw [if_neg hg] at h2
        cases h2

theorem preorder_congr (files : List RawFile) (st1 st2 : BuildState)
    (hch : ∀ k, childrenOf st1 k = childrenOf st2 k) :
    ∀ (fuel i : Nat), preorder files st1 fuel i = preorder files st2 fuel i := by
  intro fuel
  induction fuel with
  | zero => intro i; rfl
  | succ f ih =>
    intro i
    rw [preorder, preorder, hch i]
    by_cases hg : ((files.getD i default).isFolder && !(childrenOf st2 i).isEmpty) = true
    · rw [if_pos hg, if_pos hg]
      have hfun : (fun c => preorder files st1 f c) = (fun c => preorder files st2 f c) :=
        funext (fun c => ih c)
      rw [hfun]
    · rw [if_neg hg, if_neg hg]

theorem preorder_leaf (files : List RawFile) (st : BuildState) (fuel i : Nat)
    (h : childrenOf st i = []) : preorder files st (fuel + 1) i = [i] := by
  rw [preorder, h]
  simp

theorem preorder_insert (files : List RawFile) (st st' : BuildState) (j i0 : Nat)
    (hchil : ∀ k, childrenOf st' k =
      if k = j then childrenOf st j ++ [i0] else childrenOf st k)
    (hstrict : ∀ a b, b ∈ childrenOf st a → a < b ∧ b < files.length)
    (hji : j < i0) (hin : i0 < files.length)
    (hfresh : ∀ a, i0 ∉ childrenOf st a)
    (hci0 : childrenOf st i0 = [])
    (hfol : (files.getD j default).isFolder = true) :
    ∀ (fuel c : Nat), c < files.length → c ≠ i0 → files.length - c ≤ fuel →
      List.Perm (preorder files st' fuel c)
        (preorder files st fuel c ++
          List.replicate ((preorder files st fuel c).count j) i0) := by
  have hstrict2 : ∀ a b, b ∈ childrenOf st a → a < b := fun a b h => (hstrict a b h).1
  intro fuel
  induction fuel with
  | zero => intro c hc _ hfc; omega
  | succ f ih =>
    intro c hc hci hfc
    have hkc := hchil c
    have hihd : ∀ d ∈ childrenOf st c,
        List.Perm (preorder files st' f d)
          (preorder files st f d ++
            List.replicate ((preorder files st f d).count j) i0) := by
      intro d hdmem
      have h1 : c < d := hstrict2 c d hdmem
      have h2 : d < files.length := (hstrict c d hdmem).2
      have h3 : d ≠ i0 := by
        intro he
        rw [he] at hdmem
        exact hfresh c hdmem
      exact ih d h2 h3 (by omega)
    by_cases hcj : c = j
    · subst hcj
      rw [if_pos rfl] at hkc
      have hf1 : 1 ≤ f := by omega
      have hpi0 : preorder files st' f i0 = [i0] := by
        cases f with
        | zero => omega
        | succ f2 =>
          apply preorder_leaf
          rw [hchil i0, if_neg (by omega)]
          exact hci0
      have hd0 : ∀ d ∈ childrenOf st c,
          List.Perm (preorder files st' f d) (preorder files st f d) := by
        intro d hdmem
        have hcnt : (preorder files st f d).count c = 0 := by
          rw [List.count_eq_zero]
          intro hmem
          have h1 : c < d := hstrict2 c d hdmem
          have h2 := preorder_elems files st hstrict2 f d c hmem
          omega
        have := hihd d hdmem
        rw [hcnt, List.replicate_zero, List.append_nil] at this
        exact this
      by_cases hke : childrenOf st c = []
      · rw [preorder, hkc, hke]
        rw [preorder, hke]
        have hguard' : ((files.getD c default).isFolder &&
            !(([] : List Nat) ++ [i0]).isEmpty) = true := by
          rw [hfol]; rfl
        rw [if_pos hguard']
        have hgn : (((files.getD c default).isFolder &&
            !(([] : List Nat)).isEmpty)) = false := by
          simp
        rw [hgn]
        simp only [Bool.false_eq_true, if_false]
        have hsort : sortSiblings files (([] : List Nat) ++ [i0]) = [i0] := by
          rfl
        rw [hsort, List.flatMap_cons, List.flatMap_nil, hpi0, List.append_nil]
        have hcount : (([c] : List Nat)).count c = 1 := by simp
        rw [hcount]
        rfl
      · rw [preorder, hkc]
        rw [preorder]
        have hguard' : ((files.getD c default).isFolder &&
            !(childrenOf st c ++ [i0]).isEmpty) = true := by
          rw [hfol]; simp
        have hguard : ((files.getD c default).isFolder &&
            !(childrenOf st c).isEmpty) = true := by
          rw [hfol]
          cases hcz : childrenOf st c with
          | nil => exact absurd hcz hke
          | cons a l => rfl
        rw [if_pos hguard', if_pos hguard]
        have hp1 : List.Perm
            ((sortSiblings files (childrenOf st c ++ [i0])).flatMap
              (fun d => preorder files st' f d))
            ((childrenOf st c ++ [i0]).flatMap (fun d => preorder files st' f d)) :=
          List.Perm.flatMap_right _ (List.perm_insertionSort _ _)
        have hp2 : ((childrenOf st c ++ [i0]).flatMap (fun d => preorder files st' f d)) =
            (childrenOf st c).flatMap (fun d => preorder files st' f d) ++ [i0] := by
          rw [List.flatMap_append, List.flatMap_cons, List.flatMap_nil, hpi0, List.append_nil]
        have hp3 : List.Perm
            ((childrenOf st c).flatMap (fun d => preorder files st' f d))
            ((childrenOf st c).flatMap (fun d => preorder files st f d)) :=
          List.Perm.flatMap_left _ hd0
        have hp4 : List.Perm
            ((childrenOf st c).flatMap (fun d => preorder files st f d))
            ((sortSiblings files (childrenOf st c)).flatMap
              (fun d => preorder files st f d)) :=
          List.Perm.flatMap_right _ (List.perm_insertionSort _ _).symm
        have hcntS : ((sortSiblings files (childrenOf st c)).flatMap
            (fun d => preorder files st f d)).count c = 0 := by
          rw [List.count_eq_zero]
          intro hmem
          rcases List.mem_flatMap.mp hmem with ⟨d, hd, hcd⟩
          have hd' : d ∈ childrenOf st c := by
            rw [sortSiblings] at hd
            exact (List.mem_insertionSort (sibLe files)).mp hd
          have h1 : c < d := hstrict2 c d hd'
          have h2 := preorder_elems files st hstrict2 f d c hcd
          omega
        have hcount : (c :: (sortSiblings files (childrenOf st c)).flatMap
            (fun d => preorder files st f d)).count c = 1 := by
          rw [List.count_cons, hcntS]
          simp
        rw [hcount]
        have hrepl : List.replicate 1 i0 = [i0] := rfl
        rw [hrepl]
        have s1 : List.Perm
            (c :: (sortSiblings files (childrenOf st c ++ [i0])).flatMap
              (fun d => preorder files st' f d))
            (c :: ((childrenOf st c).flatMap (fun d => preorder files st' f d) ++ [i0])) := by
          apply List.Perm.cons
          rw [← hp2]
          exact hp1
        have s2 : List.Perm
            (c :: ((childrenOf st c).flatMap (fun d => preorder files st' f d) ++ [i0]))
            (c :: ((sortSiblings files (childrenOf st c)).flatMap
              (fun d => preorder files st f d) ++ [i0])) := by
          apply List.Perm.cons
          apply List.Perm.append_right
          exact hp3.trans hp4
        exact s1.trans s2
    · rw [if_neg hcj] at hkc
      rw [preorder, hkc]
      rw [preorder]
      by_cases hguard : ((files.getD c default).isFolder &&
          !(childrenOf st c).isEmpty) = true
      · rw [if_pos hguard, if_pos hguard]
        have hihd' : ∀ d ∈ sortSiblings files (childrenOf st c),
            List.Perm (preorder files st' f d)
              (preorder files st f d ++
                List.replicate ((preorder files st f d).count j) i0) := by
          intro d hd
          apply hihd
          rw [sortSiblings] at hd
          exact (List.mem_insertionSort (sibLe files)).mp hd
        have hq1 : List.Perm
            ((sortSiblings files (childrenOf st c)).flatMap (fun d => preorder files st' f d))
            ((sortSiblings files (childrenOf st c)).flatMap
              (fun d => preorder files st f d ++
                List.replicate ((preorder files st f d).count j) i0)) :=
          List.Perm.flatMap_left _ hihd'
        have hq2 : List.Perm
            ((sortSiblings files (childrenOf st c)).flatMap
              (fun d => preorder files st f d ++
                List.replicate ((preorder files st f d).count j) i0))
            ((sortSiblings files (childrenOf st c)).flatMap (fun d => preorder files st f d) ++
              (sortSiblings files (childrenOf st c)).flatMap
                (fun d => List.replicate ((preorder files st f d).count j) i0)) :=
          (List.flatMap_append_perm _ _ _).symm
        have hq3 : (sortSiblings files (childrenOf st c)).flatMap
              (fun d => List.replicate ((preorder files st f d).count j) i0) =
            List.replicate (((sortSiblings files (childrenOf st c)).map
              (fun d => (preorder files st f d).count j)).sum) i0 :=
          flatMap_replicate_eq i0 _ _
        have hcnt : (c :: (sortSiblings files (childrenOf st c)).flatMap
              (fun d => preorder files st f d)).count j =
            ((sortSiblings files (childrenOf st c)).map
              (fun d => (preorder files st f d).count j)).sum := by
          rw [List.count_cons, count_flatMap_eq]
          have : (c == j) = false := by
            simp only [beq_eq_false_iff_ne, ne_eq]
            exact hcj
          rw [this]
          simp
        rw [hcnt]
        have s1 : List.Perm
            (c :: (sortSiblings files (childrenOf st c)).flatMap
              (fun d => preorder files st' f d))
            (c :: ((sortSiblings files (childrenOf st c)).flatMap
                (fun d => preorder files st f d) ++
              List.replicate (((sortSiblings files (childrenOf st c)).map
                (fun d => (preorder files st f d).count j)).sum) i0)) := by
          apply List.Perm.cons
          rw [← hq3]
          exact hq1.trans hq2
        exact s1
      · rw [if_neg hguard, if_neg hguard]
        have : (([c] : List Nat)).count j = 0 := by
          rw [List.count_eq_zero]
          intro hmem
          rcases List.mem_singleton.mp hmem with rfl
          exact hcj rfl
        rw [this, List.replicate_zero, List.append_nil]

theorem render_roots_perm (files : List RawFile) (hu : NodupIds files)
    (hok : ∀ i < files.length, outcome files i ≠ Except.error ())
    (hns : ∀ i < files.length, outcome files i ≠ Except.ok (some i)) :
    ∀ m, m ≤ files.length →
      List.Perm
        (((List.range m).filter (fun i => decide (outcome files i = Except.ok none))).flatMap
          (fun r => preorder files (stChar files m) (files.length + 1) r))
        (List.range m) := by
  intro m
  induction m with
  | zero => intro _; simp
  | succ m ih =>
    intro hm1
    have hm : m < files.length := by omega
    have ihm := ih (by omega)
    have hstrict : ∀ a b, b ∈ childrenOf (stChar files m) a → a < b ∧ b < files.length := by
      intro a b hb
      rw [mem_childrenOf_char] at hb
      rcases hb with ⟨_, hbm, hob⟩
      have hle := (outcome_some_le files b a hob).1
      have hne : a ≠ b := by
        intro he
        rw [he] at hob
        exact hns b (by omega) hob
      constructor
      · omega
      · omega
    cases ho : outcome files m with
    | error e =>
      cases e
      exact absurd ho (hok m hm)
    | ok oj =>
      cases oj with
      | none =>
        have hch : ∀ k, childrenOf (stChar files (m + 1)) k = childrenOf (stChar files m) k := by
          intro k
          rw [childrenOf_stChar, childrenOf_stChar]
          by_cases hk : k < files.length
          · rw [if_pos hk, if_pos hk, List.range_succ, List.filter_append,
              filter_singleton_decide]
            rw [if_neg (by simp [ho]), List.append_nil]
          · rw [if_neg hk, if_neg hk]
        have hroots : (List.range (m + 1)).filter
              (fun i => decide (outcome files i = Except.ok none)) =
            ((List.range m).filter (fun i => decide (outcome files i = Except.ok none))) ++ [m] := by
          rw [List.range_succ, List.filter_append, filter_singleton_decide]
          rw [if_pos (by simp [ho])]
        rw [hroots, List.flatMap_append]
        have hfun : (fun r => preorder files (stChar files (m + 1)) (files.length + 1) r) =
            (fun r => preorder files (stChar files m) (files.length + 1) r) :=
          funext (fun r => preorder_congr files _ _ hch (files.length + 1) r)
        rw [hfun]
        have hprem : preorder files (stChar files m) (files.length + 1) m = [m] := by
          apply preorder_leaf
          rw [childrenOf_stChar, if_pos hm]
          exact filter_outcome_ge files m m (le_refl m)
        have hsingle : (([m] : List Nat)).flatMap
            (fun r => preorder files (stChar files m) (files.length + 1) r) = [m] := by
          rw [List.flatMap_cons, List.flatMap_nil, hprem, List.append_nil]
        rw [hsingle, List.range_succ]
        exact List.Perm.append_right _ ihm
      | some j =>
        rcases outcome_some_le files m j ho with ⟨hjm, hjn, hjf⟩
        have hjm' : j < m := by
          have : j ≠ m := by
            intro he
            rw [he] at ho
            exact hns m hm ho
          omega
        have hchil : ∀ k, childrenOf (stChar files (m + 1)) k =
            if k = j then childrenOf (stChar files m) j ++ [m]
            else childrenOf (stChar files m) k := by
          intro k
          by_cases hkj : k = j
          · subst hkj
            rw [if_pos rfl]
            rw [childrenOf_stChar, childrenOf_stChar, if_pos hjn, if_pos hjn]
            rw [List.range_succ, List.filter_append, filter_singleton_decide]
            rw [if_pos (by simp [ho])]
          · rw [if_neg hkj]
            by_cases hk : k < files.length
            · rw [childrenOf_stChar, childrenOf_stChar, if_pos hk, if_pos hk]
              rw [List.range_succ, List.filter_append, filter_singleton_decide]
              have hne : outcome files m ≠ Except.ok (some k) := by
                rw [ho]
                intro hc
                injection hc with hc2
                injection hc2 with hc3
                exact hkj hc3.symm
              rw [if_neg (by simpa using hne), List.append_nil]
            · rw [childrenOf_stChar, childrenOf_stChar, if_neg hk, if_neg hk]
        have hfresh : ∀ a, m ∉ childrenOf (stChar files m) a := by
          intro a hc
          rw [mem_childrenOf_char] at hc
          omega
        have hci0 : childrenOf (stChar files m) m = [] := by
          rw [childrenOf_stChar, if_pos hm]
          exact filter_outcome_ge files m m (le_refl m)
        have hroots : (List.range (m + 1)).filter
              (fun i => decide (outcome files i = Except.ok none)) =
            (List.range m).filter (fun i => decide (outcome files i = Except.ok none)) := by
          rw [List.range_succ, List.filter_append, filter_singleton_decide]
          rw [if_neg (by simp [ho]), List.append_nil]
        rw [hroots]
        have hins : ∀ r ∈ (List.range m).filter
              (fun i => decide (outcome files i = Except.ok none)),
            List.Perm (preorder files (stChar files (m + 1)) (files.length + 1) r)
              (preorder files (stChar files m) (files.length + 1) r ++
                List.replicate
                  ((preorder files (stChar files m) (files.length + 1) r).count j) m) := by
          intro r hr
          have hrm : r < m := List.mem_range.mp (List.mem_filter.mp hr).1
          exact preorder_insert files (stChar files m) (stChar files (m + 1)) j m
            hchil hstrict hjm' hm hfresh hci0 hjf (files.length + 1) r (by omega)
            (by omega) (by omega)
        have hq1 := List.Perm.flatMap_left
          ((List.range m).filter (fun i => decide (outcome files i = Except.ok none))) hins
        have hq2 := (List.flatMap_append_perm
          ((List.range m).filter (fun i => decide (outcome files i = Except.ok none)))
          (fun r => preorder files (stChar files m) (files.length + 1) r)
          (fun r => List.replicate
            ((preorder files (stChar files m) (files.length + 1) r).count j) m)).symm
        have hq3 := flatMap_replicate_eq m
          ((List.range m).filter (fun i => decide (outcome files i = Except.ok none)))
          (fun r => (preorder files (stChar files m) (files.length + 1) r).count j)
        have hsum : (((List.range m).filter
              (fun i => decide (outcome files i = Except.ok none))).map
              (fun r => (preorder files (stChar files m) (files.length + 1) r).count j)).sum =
            1 := by
          rw [← count_flatMap_eq]
          rw [ihm.count_eq j]
          exact List.count_eq_one_of_mem (List.nodup_range m) (List.mem_range.mpr hjm')
        rw [hq3] at hq2
        rw [hsum] at hq2
        have hone : List.replicate 1 m = [m] := rfl
        rw [hone] at hq2
        have := hq1.trans hq2
        refine this.trans ?_
        rw [List.range_succ]
        exact List.Perm.append_right _ ihm

/-- C4 (amended): for a batch with unique identifiers on which the build
completes and in which no record is attached as its own child, the number
of display lines rendered from the Forest equals the number of records.
(The original claim fails: a Folder listing itself as parent attaches to
its own children list, leaves the Forest and is never rendered.) -/
theorem claim4_render_line_count_eq_batch_size
    (files : List RawFile) (st : BuildState)
    (hu : NodupIds files) (hb : buildTree files = Except.ok st)
    (hns : ∀ i < files.length, i ∉ childrenOf st i) :
    (printForest files st (files.length + 1)).length = files.length := by
  rcases buildTree_char files hu st hb with ⟨hok, hst⟩
  subst hst
  have hns' : ∀ i < files.length, outcome files i ≠ Except.ok (some i) := by
    intro i hi hc
    exact hns i hi ((mem_childrenOf_char files files.length i i).mpr ⟨hi, hi, hc⟩)
  have hperm := render_roots_perm files hu hok hns' files.length (le_refl _)
  have hlen : (((List.range files.length).filter
      (fun i => decide (outcome files i = Except.ok none))).flatMap
      (fun r => preorder files (stChar files files.length) (files.length + 1) r)).length =
      files.length := by
    rw [hperm.length_eq, List.length_range]
  rw [List.length_flatMap] at hlen
  rw [printForest, List.length_flatMap]
  have hmap1 : (sortSiblings files (rootsIdx (stChar files files.length))).map
      (List.length ∘ fun r =>
        printTree files (stChar files files.length) (files.length + 1) r 0) =
      (sortSiblings files (rootsIdx (stChar files files.length))).map
      (List.length ∘ fun r =>
        preorder files (stChar files files.length) (files.length + 1) r) := by
    apply List.map_congr_left
    intro r _
    simp only [Function.comp]
    exact printTree_length_eq_preorder files _ _ r 0
  rw [hmap1]
  have hperm2 : List.Perm (sortSiblings files (rootsIdx (stChar files files.length)))
      (rootsIdx (stChar files files.length)) := List.perm_insertionSort _ _
  have hsum := (hperm2.map (List.length ∘ fun r =>
    preorder files (stChar files files.length) (files.length + 1) r)).sum_eq
  rw [hsum, rootsIdx_stChar]
  exact hlen

/-- C4 counterexample: a single-record batch consisting of one Folder that
lists itself as parent builds successfully, yet rendering the resulting
Forest produces zero lines for one record. -/
theorem claim4_render_line_count_counterexample :
    buildTree [RawFile.mk "s1" "loop" folderMimeType (some ["s1"])] =
      Except.ok (BuildState.mk [[0]] []) ∧
    (printForest [RawFile.mk "s1" "loop" folderMimeType (some ["s1"])]
      (BuildState.mk [[0]] []) 2).length = 0 ∧
    ([RawFile.mk "s1" "loop" folderMimeType (some ["s1"])] : List RawFile).length = 1 := by
  refine ⟨by decide, ?_, rfl⟩
  rfl

/-- C4 witness: a concrete two-record batch renders exactly two lines. -/
theorem claim4_render_line_count_eq_batch_size_witness :
    (printForest
      [RawFile.mk "h1" "docs" folderMimeType none,
       RawFile.mk "h2" "c.txt" "text/plain" (some ["h1"])]
      (BuildState.mk [[1], []] [("h1", 0)]) 3).length = 2 :=
  claim4_render_line_count_eq_batch_size
    [RawFile.mk "h1" "docs" folderMimeType none,
     RawFile.mk "h2" "c.txt" "text/plain" (some ["h1"])]
    (BuildState.mk [[1], []] [("h1", 0)])
    (by decide) (by decide) (by decide)

/-! ### Ordering lemmas -/

theorem flatMap_congr_left {α β : Type} (l : List α) (f g : α → List β)
    (h : ∀ a ∈ l, f a = g a) : l.flatMap f = l.flatMap g := by
  induction l with
  | nil => rfl
  | cons a rest ih =>
    rw [List.flatMap_cons, List.flatMap_cons, h a (List.mem_cons_self a rest),
      ih (fun b hb => h b (List.mem_cons_of_mem a hb))]

theorem sortKeyLe_total (a b : Bool × String) : sortKeyLe a b ∨ sortKeyLe b a := by
  rcases lt_trichotomy a.1 b.1 with h | h | h
  · exact Or.inl (Or.inl h)
  · rcases le_total a.2 b.2 with h2 | h2
    · exact Or.inl (Or.inr ⟨h, h2⟩)
    · exact Or.inr (Or.inr ⟨h.symm, h2⟩)
  · exact Or.inr (Or.inl h)

theorem sortKeyLe_trans (a b c : Bool × String)
    (h1 : sortKeyLe a b) (h2 : sortKeyLe b c) : sortKeyLe a c := by
  rcases h1 with h1 | ⟨h1e, h1le⟩
  · rcases h2 with h2 | ⟨h2e, _⟩
    · exact Or.inl (lt_trans h1 h2)
    · exact Or.inl (h2e ▸ h1)
  · rcases h2 with h2 | ⟨h2e, h2le⟩
    · exact Or.inl (h1e ▸ h2)
    · exact Or.inr ⟨h1e.trans h2e, le_trans h1le h2le⟩

instance (files : List RawFile) : IsTotal Nat (sibLe files) :=
  ⟨fun a b => sortKeyLe_total (childKey files a) (childKey files b)⟩

instance (files : List RawFile) : IsTrans Nat (sibLe files) :=
  ⟨fun a b c => sortKeyLe_trans (childKey files a) (childKey files b) (childKey files c)⟩

/-- C5: at the Forest root level and at every children list, the printer
renders siblings in the order produced by the two-key sort: the sorted
list is a permutation of the stored children, it is sorted under the
(is-regular-file ascending, name ascending) tuple comparison, and every
folder precedes every regular file; the forest render literally traverses
the sorted root list. -/
theorem claim5_sibling_order_two_key_sort
    (files : List RawFile) (st : BuildState) (l : List Nat) (fuel : Nat) :
    List.Perm (sortSiblings files l) l ∧
    List.Sorted (sibLe files) (sortSiblings files l) ∧
    List.Pairwise (fun a b => (files.getD a default).isFolder = false →
      (files.getD b default).isFolder = false) (sortSiblings files l) ∧
    printForest files st fuel =
      (sortSiblings files (rootsIdx st)).flatMap (fun r => printTree files st fuel r 0) := by
  refine ⟨List.perm_insertionSort _ _, List.sorted_insertionSort _ _, ?_, rfl⟩
  have hs : List.Pairwise (sibLe files) (sortSiblings files l) :=
    List.sorted_insertionSort _ _
  apply hs.imp
  intro a b hab hfa
  rcases hab with h1 | h2
  · exfalso
    rw [childKey, childKey, hfa] at h1
    simp only [Bool.not_false] at h1
    rcases Bool.lt_iff.mp h1 with ⟨hc, _⟩
    cases hc
  · rw [childKey, childKey, hfa] at h2
    simp only [Bool.not_false] at h2
    rcases h2 with ⟨h2e, _⟩
    cases hb : (files.getD b default).isFolder with
    | false => rfl
    | true =>
      rw [hb] at h2e
      simp at h2e

/-! ### Fuel stability of the printer on built states -/

theorem printTree_fuel_stable (files : List RawFile) :
    ∀ (fuel1 : Nat), ∀ (fuel2 i level : Nat), i < files.length →
      i ∉ childrenOf (stChar files files.length) i →
      files.length - i ≤ fuel1 → files.length - i ≤ fuel2 →
      printTree files (stChar files files.length) fuel1 i level =
        printTree files (stChar files files.length) fuel2 i level := by
  intro fuel1
  induction fuel1 with
  | zero =>
    intro fuel2 i level hi _ h1 _
    omega
  | succ f1 ih =>
    intro fuel2 i level hi hnsi h1 h2
    cases fuel2 with
    | zero => omega
    | succ f2 =>
      rw [printTree, printTree]
      by_cases hg : ((files.getD i default).isFolder &&
          !(childrenOf (stChar files files.length) i).isEmpty) = true
      · rw [if_pos hg, if_pos hg]
        congr 1
        apply flatMap_congr_left
        intro d hd
        have hd' : d ∈ childrenOf (stChar files files.length) i := by
          rw [sortSiblings] at hd
          exact (List.mem_insertionSort (sibLe files)).mp hd
        rcases (mem_childrenOf_char files files.length d i).mp hd' with ⟨_, hdn, hod⟩
        have hid : i ≤ d := (outcome_some_le files d i hod).1
        have hdi : d ≠ i := by
          intro he
          rw [he] at hd'
          exact hnsi hd'
        have hnd : d ∉ childrenOf (stChar files files.length) d := by
          intro hc
          rcases (mem_childrenOf_char files files.length d d).mp hc with ⟨_, _, hod2⟩
          rw [hod] at hod2
          injection hod2 with h3
          injection h3 with h4
          exact hdi h4.symm
        exact ih f2 d (level + 1) hdn hnd (by omega) (by omega)
      · rw [if_neg hg, if_neg hg]

theorem printForest_fuel_stable (files : List RawFile) (st : BuildState)
    (hu : NodupIds files) (hb : buildTree files = Except.ok st) :
    ∀ fuel, files.length + 1 ≤ fuel →
      printForest files st fuel = printForest files st (files.length + 1) := by
  intro fuel hfuel
  rcases buildTree_char files hu st hb with ⟨_, hst⟩
  subst hst
  rw [printForest, printForest]
  apply flatMap_congr_left
  intro r hr
  have hr' : r ∈ rootsIdx (stChar files files.length) := by
    rw [sortSiblings] at hr
    exact (List.mem_insertionSort (sibLe files)).mp hr
  rcases (mem_rootsIdx_char files files.length r).mp hr' with ⟨hrn, hro⟩
  have hnr : r ∉ childrenOf (stChar files files.length) r := by
    intro hc
    rcases (mem_childrenOf_char files files.length r r).mp hc with ⟨_, _, hro2⟩
    rw [hro] at hro2
    cases hro2
  exact printTree_fuel_stable files fuel (files.length + 1) r 0 hrn hnr
    (by omega) (by omega)

/-- C7 (amended): on a batch with unique identifiers containing a record
that lists its own identifier among its parents, building terminates and
rendering is fuel-stable (the printer never recurses forever on the built
Forest); the record resolves to top-level placement when no entry of its
parent list resolves to a fetched Folder, but a Folder whose parent list
begins with its own identifier attaches to its own children list and is
omitted from the Forest rather than being placed top-level. -/
theorem claim7_self_cycle_terminates_placement
    (files : List RawFile) (st : BuildState)
    (hu : NodupIds files) (hb : buildTree files = Except.ok st)
    (i : Nat) (hi : i < files.length)
    (hself : idOf files i ∈ (files.getD i default).getParents) :
    (∀ fuel, files.length + 1 ≤ fuel →
      printForest files st fuel = printForest files st (files.length + 1)) ∧
    (specFirstFolderParent files (files.getD i default).getParents = none →
      i ∈ rootsIdx st) ∧
    ((files.getD i default).isFolder = true →
      ((files.getD i default).getParents).head? = some (idOf files i) →
      i ∈ childrenOf st i ∧ i ∉ rootsIdx st) := by
  rcases buildTree_char files hu st hb with ⟨hok, hst⟩
  refine ⟨printForest_fuel_stable files st hu hb, ?_, ?_⟩
  · intro hspec
    subst hst
    rw [mem_rootsIdx_char]
    refine ⟨hi, ?_⟩
    cases ho : outcome files i with
    | error e =>
      cases e
      exact absurd ho (hok i hi)
    | ok oj =>
      cases oj with
      | none => rfl
      | some j =>
        rw [outcome_def] at ho
        rw [scanLoop_some_spec files hu i _ j ho] at hspec
        cases hspec
  · intro hfol hhead
    have hout : outcome files i = Except.ok (some i) := by
      rw [outcome_def]
      cases hps : (files.getD i default).getParents with
      | nil => rw [hps] at hhead; cases hhead
      | cons p rest =>
        rw [hps] at hhead
        simp only [List.head?_cons] at hhead
        injection hhead with hp
        subst hp
        rw [scanLoop_cons_some files i (idOf files i) rest i
          (lastIdxOf_of_id files hu i hi)]
        rw [if_pos (le_refl i), if_pos hfol]
    subst hst
    constructor
    · rw [mem_childrenOf_char]
      exact ⟨hi, hi, hout⟩
    · rw [mem_rootsIdx_char]
      intro ⟨_, hc⟩
      rw [hout] at hc
      cases hc

/-- C7 counterexample: a batch whose only record is a Folder listing its
own identifier as parent builds successfully, but the record does not
resolve to top-level placement: the Forest is empty. -/
theorem claim7_self_cycle_counterexample :
    buildTree [RawFile.mk "c1" "curl" folderMimeType (some ["c1"])] =
      Except.ok (BuildState.mk [[0]] []) ∧
    rootsIdx (BuildState.mk [[0]] []) = [] := by
  exact ⟨by decide, rfl⟩

/-- C7 witness: on the concrete self-parenting Folder batch, rendering at
fuel 3 equals rendering at the stable fuel 2, and the record is attached
to its own children list and absent from the Forest roots. -/
theorem claim7_self_cycle_terminates_placement_witness :
    (printForest [RawFile.mk "w1" "w" folderMimeType (some ["w1"])]
        (BuildState.mk [[0]] []) 3 =
      printForest [RawFile.mk "w1" "w" folderMimeType (some ["w1"])]
        (BuildState.mk [[0]] []) 2) ∧
    (0 ∈ childrenOf (BuildState.mk [[0]] []) 0 ∧
      0 ∉ rootsIdx (BuildState.mk [[0]] [])) := by
  have h := claim7_self_cycle_terminates_placement
    [RawFile.mk "w1" "w" folderMimeType (some ["w1"])]
    (BuildState.mk [[0]] []) (by decide) (by decide) 0 (by decide) (by decide)
  exact ⟨h.1 3 (by decide), h.2.2 (by decide) (by decide)⟩

/-! ### The printer does not mutate the built structure -/

theorem printNodesS_state (files : List RawFile) :
    ∀ (fuel : Nat) (st : BuildState) (l : List Nat) (level : Nat),
      (printNodesS files fuel st l level).2 = st := by
  intro fuel
  induction fuel with
  | zero => intro st l level; rw [printNodesS]
  | succ f ih =>
    intro st l
    induction l with
    | nil => intro level; rw [printNodesS]
    | cons i rest ihl =>
      intro level
      rw [printNodesS]
      by_cases hg : ((files.getD i default).isFolder && !(childrenOf st i).isEmpty) = true
      · simp only [hg, if_true]
        rw [ih st (sortSiblings files (childrenOf st i)) (level + 1)]
        exact ihl level
      · simp only [hg, if_false]
        exact ihl level

/-- C8: rendering is idempotent and does not mutate the built structure:
the state-threaded printer returns the structure it was given, so a second
render (run on the structure returned by the first) produces the same line
sequence; and the children lists stored in the built state are in fetch
order (strictly increasing record positions), confirming that the sibling
sort is computed at render time into a fresh ordering. -/
theorem claim8_render_idempotent_children_fetch_order
    (files : List RawFile) (st : BuildState)
    (hu : NodupIds files) (hb : buildTree files = Except.ok st) :
    (∀ (fuel : Nat) (l : List Nat) (level : Nat),
      (printNodesS files fuel st l level).2 = st) ∧
    (∀ fuel : Nat, (printForestS files st fuel).1 =
      (printForestS files ((printForestS files st fuel).2) fuel).1) ∧
    (∀ j, List.Pairwise (fun a b => a < b) (childrenOf st j)) := by
  refine ⟨fun fuel l level => printNodesS_state files fuel st l level, ?_, ?_⟩
  · intro fuel
    have h2 : (printForestS files st fuel).2 = st :=
      printNodesS_state files fuel st _ 0
    rw [h2]
  · intro j
    rcases buildTree_char files hu st hb with ⟨_, hst⟩
    subst hst
    by_cases hj : j < files.length
    · rw [childrenOf_stChar, if_pos hj]
      exact List.Pairwise.filter _ (List.pairwise_lt_range files.length)
    · rw [childrenOf_stChar, if_neg hj]
      exact List.Pairwise.nil

/-- C8 witness: on a concrete built state, the threaded printer returns
the state unchanged and the stored children list is in fetch order. -/
theorem claim8_render_idempotent_children_fetch_order_witness :
    (printNodesS [RawFile.mk "k1" "docs" folderMimeType none,
        RawFile.mk "k2" "d.txt" "text/plain" (some ["k1"])] 3
      (BuildState.mk [[1], []] [("k1", 0)]) [0] 0).2 =
      BuildState.mk [[1], []] [("k1", 0)] ∧
    List.Pairwise (fun a b => a < b)
      (childrenOf (BuildState.mk [[1], []] [("k1", 0)]) 0) := by
  have h := claim8_render_idempotent_children_fetch_order
    [RawFile.mk "k1" "docs" folderMimeType none,
     RawFile.mk "k2" "d.txt" "text/plain" (some ["k1"])]
    (BuildState.mk [[1], []] [("k1", 0)]) (by decide) (by decide)
  exact ⟨h.1 3 [0] 0, h.2.2 0⟩

/-! ### Fetch-order independence of the attachment relation -/

theorem isFolderId_perm (files1 files2 : List RawFile) (hp : List.Perm files1 files2)
    (pid : String) : isFolderId files1 pid = isFolderId files2 pid := by
  rw [isFolderId, isFolderId, Bool.eq_iff_iff, List.any_eq_true, List.any_eq_true]
  constructor
  · intro ⟨f, hf, hpf⟩
    exact ⟨f, hp.mem_iff.mp hf, hpf⟩
  · intro ⟨f, hf, hpf⟩
    exact ⟨f, hp.mem_iff.mpr hf, hpf⟩

theorem specFirstFolderParent_perm (files1 files2 : List RawFile)
    (hp : List.Perm files1 files2) :
    ∀ ps, specFirstFolderParent files1 ps = specFirstFolderParent files2 ps := by
  intro ps
  induction ps with
  | nil => rfl
  | cons pid rest ih =>
    rw [specFirstFolderParent, specFirstFolderParent, isFolderId_perm files1 files2 hp pid, ih]

theorem attachedIds_iff_spec (files : List RawFile) (st : BuildState)
    (hu : NodupIds files) (hb : buildTree files = Except.ok st) (c p : String) :
    attachedIds files st c p ↔
      ∃ f, f ∈ files ∧ f.id = c ∧
        specFirstFolderParent files f.getParents = some p := by
  rcases buildTree_char files hu st hb with ⟨hok, hst⟩
  subst hst
  constructor
  · intro ⟨i, hi, j, hj, hmem, hic, hjp⟩
    have hin := List.mem_range.mp hi
    rcases (mem_childrenOf_char files files.length i j).mp hmem with ⟨_, _, ho⟩
    rw [outcome_def] at ho
    refine ⟨files.getD i default, ?_, hic, ?_⟩
    · rw [getD_lt files i hin]
      exact List.getElem_mem hin
    · rw [scanLoop_some_spec files hu i _ j ho, hjp]
  · intro ⟨f, hf, hfc, hfp⟩
    rcases List.mem_iff_getElem.mp hf with ⟨i, hin, hfi⟩
    have hgd : files.getD i default = f := by rw [getD_lt files i hin, hfi]
    cases ho : outcome files i with
    | error e =>
      cases e
      exact absurd ho (hok i hin)
    | ok oj =>
      rw [outcome_def] at ho
      cases oj with
      | none =>
        exfalso
        have hn := scanLoop_none_spec files hu i _ ho
        rw [hgd] at hn
        rw [hfp] at hn
        cases hn
      | some j =>
        have hs := scanLoop_some_spec files hu i _ j ho
        rw [hgd, hfp] at hs
        injection hs with hs2
        have hjn : j < files.length := (scanLoop_ok_some files i _ j ho).2.1
        refine ⟨i, List.mem_range.mpr hin, j, List.mem_range.mpr hjn, ?_, ?_, hs2.symm⟩
        · rw [mem_childrenOf_char]
          refine ⟨hjn, hin, ?_⟩
          rw [outcome_def]
          exact ho
        · rw [idOf, hgd, hfc]

theorem rootIds_iff_spec (files : List RawFile) (st : BuildState)
    (hu : NodupIds files) (hb : buildTree files = Except.ok st) (x : String) :
    x ∈ rootIds st ↔
      ∃ f, f ∈ files ∧ f.id = x ∧
        specFirstFolderParent files f.getParents = none := by
  rcases buildTree_char files hu st hb with ⟨hok, hst⟩
  subst hst
  rw [rootIds, stChar]
  simp only [List.map_map, List.mem_map, List.mem_filter, List.mem_range,
    decide_eq_true_eq, Function.comp]
  constructor
  · intro ⟨i, ⟨hin, ho⟩, hix⟩
    rw [outcome_def] at ho
    refine ⟨files.getD i default, ?_, hix, scanLoop_none_spec files hu i _ ho⟩
    rw [getD_lt files i hin]
    exact List.getElem_mem hin
  · intro ⟨f, hf, hfx, hfp⟩
    rcases List.mem_iff_getElem.mp hf with ⟨i, hin, hfi⟩
    have hgd : files.getD i default = f := by rw [getD_lt files i hin, hfi]
    cases ho : outcome files i with
    | error e =>
      cases e
      exact absurd ho (hok i hin)
    | ok oj =>
      cases oj with
      | some j =>
        rw [outcome_def] at ho
        have hs := scanLoop_some_spec files hu i _ j ho
        rw [hgd, hfp] at hs
        cases hs
      | none =>
        refine ⟨i, ⟨hin, ho⟩, ?_⟩
        rw [idOf, hgd, hfx]

/-- C9 (amended): for batches with unique identifiers where each record
has at most one parent identifier resolving to an in-batch Folder, any two
permutations of the batch on which the build completes without error
produce the same id-level attachment relation and the same set of Forest
root ids. (As stated the claim fails: one permutation can build while
another raises, see the counterexample.) -/
theorem claim9_fetch_order_independent_attachment
    (files1 files2 : List RawFile) (st1 st2 : BuildState)
    (hp : List.Perm files1 files2)
    (hu : NodupIds files1)
    (hle : ∀ f ∈ files1,
      ((f.getParents).countP (fun pid => isFolderId files1 pid)) ≤ 1)
    (hb1 : buildTree files1 = Except.ok st1)
    (hb2 : buildTree files2 = Except.ok st2) :
    (∀ c p : String, attachedIds files1 st1 c p ↔ attachedIds files2 st2 c p) ∧
    (∀ x : String, x ∈ rootIds st1 ↔ x ∈ rootIds st2) := by
  have hu2 : NodupIds files2 := by
    rw [NodupIds]
    rw [← (hp.map RawFile.id).nodup_iff]
    exact hu
  constructor
  · intro c p
    rw [attachedIds_iff_spec files1 st1 hu hb1 c p,
      attachedIds_iff_spec files2 st2 hu2 hb2 c p]
    constructor
    · intro ⟨f, hf, h1, h2⟩
      exact ⟨f, hp.mem_iff.mp hf, h1, by
        rw [← specFirstFolderParent_perm files1 files2 hp f.getParents]
        exact h2⟩
    · intro ⟨f, hf, h1, h2⟩
      exact ⟨f, hp.mem_iff.mpr hf, h1, by
        rw [specFirstFolderParent_perm files1 files2 hp f.getParents]
        exact h2⟩
  · intro x
    rw [rootIds_iff_spec files1 st1 hu hb1 x, rootIds_iff_spec files2 st2 hu2 hb2 x]
    constructor
    · intro ⟨f, hf, h1, h2⟩
      exact ⟨f, hp.mem_iff.mp hf, h1, by
        rw [← specFirstFolderParent_perm files1 files2 hp f.getParents]
        exact h2⟩
    · intro ⟨f, hf, h1, h2⟩
      exact ⟨f, hp.mem_iff.mpr hf, h1, by
        rw [specFirstFolderParent_perm files1 files2 hp f.getParents]
        exact h2⟩

/-- C9 counterexample: two permutations of one batch with unique ids and
at most one resolvable folder parent per record: the order with the folder
first builds successfully while the other raises, so building from an
arbitrary permutation does not always yield the same result. -/
theorem claim9_fetch_order_counterexample :
    List.Perm
      [RawFile.mk "a9" "a" "text/plain" (some ["b9"]),
       RawFile.mk "b9" "b" folderMimeType none]
      [RawFile.mk "b9" "b" folderMimeType none,
       RawFile.mk "a9" "a" "text/plain" (some ["b9"])] ∧
    NodupIds [RawFile.mk "a9" "a" "text/plain" (some ["b9"]),
       RawFile.mk "b9" "b" folderMimeType none] ∧
    (∀ f ∈ [RawFile.mk "a9" "a" "text/plain" (some ["b9"]),
        RawFile.mk "b9" "b" folderMimeType none],
      ((f.getParents).countP (fun pid => isFolderId
        [RawFile.mk "a9" "a" "text/plain" (some ["b9"]),
         RawFile.mk "b9" "b" folderMimeType none] pid)) ≤ 1) ∧
    buildTree [RawFile.mk "b9" "b" folderMimeType none,
       RawFile.mk "a9" "a" "text/plain" (some ["b9"])] =
      Except.ok (BuildState.mk [[1], []] [("b9", 0)]) ∧
    buildTree [RawFile.mk "a9" "a" "text/plain" (some ["b9"]),
       RawFile.mk "b9" "b" folderMimeType none] = Except.error () := by
  refine ⟨by decide, by decide, by decide, by decide, by decide⟩

/-- C9 witness: two successfully building orders of a concrete
three-record batch agree on the attachment relation at the concrete pair
of ids and on root membership. -/
theorem claim9_fetch_order_independent_attachment_witness :
    (attachedIds [RawFile.mk "p9" "dir" folderMimeType none,
        RawFile.mk "q9" "f.txt" "text/plain" (some ["p9"]),
        RawFile.mk "r9" "g.txt" "text/plain" none]
      (BuildState.mk [[1], [], []] [("p9", 0), ("r9", 2)]) "q9" "p9" ↔
     attachedIds [RawFile.mk "p9" "dir" folderMimeType none,
        RawFile.mk "r9" "g.txt" "text/plain" none,
        RawFile.mk "q9" "f.txt" "text/plain" (some ["p9"])]
      (BuildState.mk [[2], [], []] [("p9", 0), ("r9", 1)]) "q9" "p9") ∧
    ("p9" ∈ rootIds (BuildState.mk [[1], [], []] [("p9", 0), ("r9", 2)]) ↔
     "p9" ∈ rootIds (BuildState.mk [[2], [], []] [("p9", 0), ("r9", 1)])) := by
  have h := claim9_fetch_order_independent_attachment
    [RawFile.mk "p9" "dir" folderMimeType none,
     RawFile.mk "q9" "f.txt" "text/plain" (some ["p9"]),
     RawFile.mk "r9" "g.txt" "text/plain" none]
    [RawFile.mk "p9" "dir" folderMimeType none,
     RawFile.mk "r9" "g.txt" "text/plain" none,
     RawFile.mk "q9" "f.txt" "text/plain" (some ["p9"])]
    (BuildState.mk [[1], [], []] [("p9", 0), ("r9", 2)])
    (BuildState.mk [[2], [], []] [("p9", 0), ("r9", 1)])
    (by decide) (by decide) (by decide) (by decide) (by decide)
  exact ⟨h.1 "q9" "p9", h.2 "p9"⟩

/-! ### A missing parents key behaves as an empty parent list -/

theorem getD_set_self {α : Type} [Inhabited α] (l : List α) (i : Nat) (v : α)
    (h : i < l.length) : (l.set i v).getD i default = v := by
  rw [List.getD_eq_getElem?_getD, List.getElem?_set]
  simp [h]

theorem getD_set_ne {α : Type} [Inhabited α] (l : List α) (i k : Nat) (v : α)
    (h : i ≠ k) : (l.set i v).getD k default = l.getD k default := by
  rw [List.getD_eq_getElem?_getD, List.getElem?_set, if_neg h,
    ← List.getD_eq_getElem?_getD]

theorem lastIdxOf_congr (files1 : List RawFile) :
    ∀ (files2 : List RawFile), files1.length = files2.length →
      (∀ k, idOf files1 k = idOf files2 k) →
      ∀ pid, lastIdxOf files1 pid = lastIdxOf files2 pid := by
  induction files1 with
  | nil =>
    intro files2 hlen _ pid
    cases files2 with
    | nil => rfl
    | cons g rest2 => simp at hlen
  | cons f rest1 ih =>
    intro files2 hlen hid pid
    cases files2 with
    | nil => simp at hlen
    | cons g rest2 =>
      have hlen' : rest1.length = rest2.length := by simpa using hlen
      have hid' : ∀ k, idOf rest1 k = idOf rest2 k := by
        intro k
        have := hid (k + 1)
        simpa [idOf, List.getD_cons_succ] using this
      have hhead : f.id = g.id := by
        have := hid 0
        simpa [idOf] using this
      rw [lastIdxOf, lastIdxOf, ih rest2 hlen' hid' pid]
      cases lastIdxOf rest2 pid with
      | some k => rfl
      | none => rw [hhead]

theorem scanLoop_congr (files1 files2 : List RawFile)
    (hlen : files1.length = files2.length)
    (hid : ∀ k, idOf files1 k = idOf files2 k)
    (hfol : ∀ k, (files1.getD k default).isFolder = (files2.getD k default).isFolder)
    (i : Nat) : ∀ ps, scanLoop files1 i ps = scanLoop files2 i ps := by
  intro ps
  induction ps with
  | nil => rfl
  | cons pid rest ih =>
    have hl := lastIdxOf_congr files1 files2 hlen hid pid
    cases h2 : lastIdxOf files2 pid with
    | none =>
      rw [scanLoop_cons_none files1 i pid rest (hl.trans h2),
        scanLoop_cons_none files2 i pid rest h2, ih]
    | some k =>
      rw [scanLoop_cons_some files1 i pid rest k (hl.trans h2),
        scanLoop_cons_some files2 i pid rest k h2, hfol k, ih]

theorem outcome_congr (files1 files2 : List RawFile)
    (hlen : files1.length = files2.length)
    (hid : ∀ k, idOf files1 k = idOf files2 k)
    (hfol : ∀ k, (files1.getD k default).isFolder = (files2.getD k default).isFolder)
    (hpar : ∀ k, (files1.getD k default).getParents = (files2.getD k default).getParents)
    (i : Nat) : outcome files1 i = outcome files2 i := by
  rw [outcome_def, outcome_def, hpar i, scanLoop_congr files1 files2 hlen hid hfol i]

theorem buildStep_congr (files1 files2 : List RawFile)
    (hlen : files1.length = files2.length)
    (hid : ∀ k, idOf files1 k = idOf files2 k)
    (hfol : ∀ k, (files1.getD k default).isFolder = (files2.getD k default).isFolder)
    (hpar : ∀ k, (files1.getD k default).getParents = (files2.getD k default).getParents)
    (st : BuildState) (i : Nat) : buildStep files1 st i = buildStep files2 st i := by
  have ho := outcome_congr files1 files2 hlen hid hfol hpar i
  cases h2 : outcome files2 i with
  | error e =>
    cases e
    rw [buildStep_error files1 st i (ho.trans h2), buildStep_error files2 st i h2]
  | ok oj =>
    cases oj with
    | some j =>
      rw [buildStep_some files1 st i j (ho.trans h2), buildStep_some files2 st i j h2]
    | none =>
      rw [buildStep_none files1 st i (ho.trans h2), buildStep_none files2 st i h2]
      have : (files1.getD i default).id = (files2.getD i default).id := hid i
      rw [this]

theorem buildAux_congr (files1 files2 : List RawFile)
    (hlen : files1.length = files2.length)
    (hid : ∀ k, idOf files1 k = idOf files2 k)
    (hfol : ∀ k, (files1.getD k default).isFolder = (files2.getD k default).isFolder)
    (hpar : ∀ k, (files1.getD k default).getParents = (files2.getD k default).getParents) :
    ∀ (todo : Nat) (st : BuildState) (i : Nat),
      buildAux files1 st i todo = buildAux files2 st i todo := by
  intro todo
  induction todo with
  | zero => intro st i; rfl
  | succ t ih =>
    intro st i
    have hst := buildStep_congr files1 files2 hlen hid hfol hpar st i
    cases h2 : buildStep files2 st i with
    | error e =>
      cases e
      rw [buildAux_step_error files1 st i t (hst.trans h2),
        buildAux_step_error files2 st i t h2]
    | ok st' =>
      rw [buildAux_step_ok files1 st st' i t (hst.trans h2),
        buildAux_step_ok files2 st st' i t h2, ih st' (i + 1)]

theorem buildTree_congr (files1 files2 : List RawFile)
    (hlen : files1.length = files2.length)
    (hid : ∀ k, idOf files1 k = idOf files2 k)
    (hfol : ∀ k, (files1.getD k default).isFolder = (files2.getD k default).isFolder)
    (hpar : ∀ k, (files1.getD k default).getParents = (files2.getD k default).getParents) :
    buildTree files1 = buildTree files2 := by
  rw [buildTree, buildTree, initState, initState, hlen,
    buildAux_congr files1 files2 hlen hid hfol hpar files2.length _ 0]

/-- C10: a record carrying no parents key at all is treated identically to
one with an empty parent list: its parents read as the empty list, the
whole build is unchanged when the missing key is replaced by an explicit
empty list, the record is attached to no children list, and it appears in
the Forest keyed by its own identifier. -/
theorem claim10_missing_parents_key_is_empty
    (files : List RawFile) (st : BuildState) (i : Nat)
    (hu : NodupIds files) (hi : i < files.length)
    (hpn : (files.getD i default).parents = none)
    (hb : buildTree files = Except.ok st) :
    (files.getD i default).getParents = [] ∧
    buildTree files = buildTree (files.set i
      (RawFile.mk (files.getD i default).id (files.getD i default).name
        (files.getD i default).mimeType (some []))) ∧
    (∀ j, i ∉ childrenOf st j) ∧
    ((files.getD i default).id, i) ∈ st.tree := by
  have hget : (files.getD i default).getParents = [] := by
    rw [RawFile.getParents, hpn]
    rfl
  have hout : outcome files i = Except.ok none := by
    rw [outcome_def, hget]
    rfl
  rcases buildTree_char files hu st hb with ⟨_, hst⟩
  refine ⟨hget, ?_, ?_, ?_⟩
  · apply buildTree_congr
    · rw [List.length_set]
    · intro k
      by_cases hk : k = i
      · subst hk
        rw [idOf, idOf, getD_set_self files k _ hi]
      · rw [idOf, idOf, getD_set_ne files i k _ (fun he => hk he.symm)]
    · intro k
      by_cases hk : k = i
      · subst hk
        rw [getD_set_self files k _ hi]
        rfl
      · rw [getD_set_ne files i k _ (fun he => hk he.symm)]
    · intro k
      by_cases hk : k = i
      · subst hk
        rw [getD_set_self files k _ hi, hget]
        rfl
      · rw [getD_set_ne files i k _ (fun he => hk he.symm)]
  · intro j hc
    subst hst
    rcases (mem_childrenOf_char files files.length i j).mp hc with ⟨_, _, ho⟩
    rw [hout] at ho
    cases ho
  · subst hst
    show _ ∈ (stChar files files.length).tree
    rw [stChar]
    apply List.mem_map.mpr
    refine ⟨i, ?_, rfl⟩
    rw [List.mem_filter]
    constructor
    · exact List.mem_range.mpr hi
    · simp [hout]

/-- C10 witness: a single record with no parents key builds to a Forest
containing it keyed by its id, identically to the explicit empty list. -/
theorem claim10_missing_parents_key_is_empty_witness :
    ([RawFile.mk "m1" "solo" "text/plain" none].getD 0 default).getParents = [] ∧
    buildTree [RawFile.mk "m1" "solo" "text/plain" none] =
      buildTree ([RawFile.mk "m1" "solo" "text/plain" none].set 0
        (RawFile.mk ([RawFile.mk "m1" "solo" "text/plain" none].getD 0 default).id
          ([RawFile.mk "m1" "solo" "text/plain" none].getD 0 default).name
          ([RawFile.mk "m1" "solo" "text/plain" none].getD 0 default).mimeType
          (some []))) ∧
    (∀ j, 0 ∉ childrenOf (BuildState.mk [[]] [("m1", 0)]) j) ∧
    (([RawFile.mk "m1" "solo" "text/plain" none].getD 0 default).id, 0) ∈
      (BuildState.mk [[]] [("m1", 0)]).tree :=
  claim10_missing_parents_key_is_empty
    [RawFile.mk "m1" "solo" "text/plain" none]
    (BuildState.mk [[]] [("m1", 0)]) 0
    (by decide) (by decide) (by decide) (by decide)
